import Mathlib

/-!
Verification of the POS backend purchase engine and its migration tooling.

The definitions below are shallow embeddings of the Python source:

* `createPurchase` embeds `app/routers/purchase_v2.create_purchase`, the
  purchase handler that `app/main.py` mounts at `/api/purchase` (the module
  is imported there as `purchase`).  The handler receives a raw JSON body
  (`payload: dict = Body(...)`), so every field access is modelled with
  `Option` and the Python `or`-defaulting is modelled with `Option.getD`
  plus emptiness tests.  Machine integers are modelled as `Int` (Python
  ints are unbounded); Python floor division `//` is `Int.fdiv`.
* The database session is modelled by `Storage` (committed rows only) and a
  `commitOk` flag standing for the success of the single `db.commit()` call:
  the transaction either commits everything staged by the handler or is
  rolled back leaving the committed state unchanged.
* `copyTable` embeds `app/scripts/migrate_sqlite_to_mysql._copy_table`
  (batch copy with row-by-row conflict fallback).
* `assignLineNos` / `groupByTrade` embed the gap-repair loop of
  `app/scripts/fix_missing_trade_details.main` and `_fetch_src_nulls`.
* `classifyRow` embeds the classification pass of
  `app/scripts/diagnose_trade_detail_conflicts.main`.
* `applyInserts` embeds the apply-mode insert loop of
  `app/scripts/fix_missing_trade_details.main` (one transaction per row).
-/

/-- A catalog product (`app/models.py`, class `Product`). -/
structure Product where
  id : Nat
  code : String
  name : String
  price : Int
deriving DecidableEq, Repr

/-- One entry of the JSON `items` array as read by `purchase_v2.create_purchase`:
every key may be absent (the handler does `it.get(...)`). -/
structure PurchaseItemV2 where
  product_code : Option String
  quantity : Option Int
  unit_price : Option Int
deriving DecidableEq, Repr

/-- The JSON purchase body as read by `purchase_v2.create_purchase`
(`payload.get("cashier_code")`, …, `payload.get("items")`). -/
structure PurchasePayload where
  cashier_code : Option String
  store_code : Option String
  pos_id : Option String
  items : Option (List PurchaseItemV2)
deriving DecidableEq, Repr

/-- The handler's success response model (`PurchaseResponse` in
`purchase_v2.py`). -/
structure PurchaseResponse where
  id : Nat
  status : String
  success : Bool
  subtotal : Int
  total : Int
deriving DecidableEq, Repr

/-- A committed `trades` row (`app/models.py`, class `Trade`; only the columns
the handler sets). -/
structure TradeRow where
  id : Nat
  emp_cd : String
  store_cd : String
  pos_no : String
  subtotal : Int
  total : Int
deriving DecidableEq, Repr

/-- A committed `trade_details` row (`app/models.py`, class `TradeDetail`;
only the columns the handler sets).  `trade_id` is attached after the
header is flushed, exactly as in the handler. -/
structure TradeDetailRow where
  trade_id : Nat
  line_no : Nat
  prd_id : Option Nat
  prd_code : String
  prd_name : String
  prd_price : Int
  qty : Int
  tax_cd : String
deriving DecidableEq, Repr

/-- Committed database state seen by the purchase handler: the `trades` and
`trade_details` tables plus the autoincrement counter behind `TRD_ID`. -/
structure Storage where
  nextTradeId : Nat
  trades : List TradeRow
  details : List TradeDetailRow
deriving DecidableEq, Repr

/-- What the handler returns: a `PurchaseResponse` on success, or the
500-error JSON path when `db.commit()` raises. -/
inductive HandlerResult where
  | ok (resp : PurchaseResponse)
  | err
deriving DecidableEq, Repr

/-- `db.query(Product).filter(Product.code == code).first()`:
first catalog product whose code matches. -/
def findProduct (catalog : List Product) (code : String) : Option Product :=
  catalog.find? (fun p => p.code == code)

/-- The ASCII whitespace characters removed by Python's `str.strip()`. -/
def pyIsSpace (c : Char) : Bool :=
  c == ' ' || c == '\t' || c == '\n' || c == '\r' || c == '\x0b' || c == '\x0c'

/-- Python `str.strip()`: drop whitespace from both ends. -/
def pyStrip (s : String) : String :=
  ⟨((s.data.dropWhile pyIsSpace).reverse.dropWhile pyIsSpace).reverse⟩

/-- `(str(x or "").strip() or default)`: strip the optional string and fall
back to the sentinel when the result is empty. -/
def strOrDefault (x : Option String) (dflt : String) : String :=
  let s := pyStrip (x.getD "")
  if s = "" then dflt else s

/-- The handler's item loop (`for idx, it in enumerate(items, start=1)`):
returns the accumulated subtotal and the detail drafts (with `trade_id`
not yet attached, recorded here as 0). -/
def buildLoop (catalog : List Product) : Nat → List PurchaseItemV2 →
    Int × List TradeDetailRow
  | _, [] => (0, [])
  | idx, it :: rest =>
    let code := pyStrip (it.product_code.getD "")
    let qty := it.quantity.getD 0
    let prd := findProduct catalog code
    let price : Int :=
      match it.unit_price with
      | some p => p
      | none => match prd with
        | some q => q.price
        | none => 0
    let d : TradeDetailRow :=
      { trade_id := 0
        line_no := idx
        prd_id := prd.map (fun q => q.id)
        prd_code := code
        prd_name := match prd with
          | some q => q.name
          | none => code
        prd_price := price
        qty := qty
        tax_cd := "10" }
    let rec_ := buildLoop catalog (idx + 1) rest
    (price * qty + rec_.1, d :: rec_.2)

/-- `purchase_v2.create_purchase`: the mounted purchase handler.  `commitOk`
stands for the success of the single `db.commit()`; on failure the handler
returns the 500-error path and the transaction is rolled back, leaving the
committed state unchanged. -/
def createPurchase (catalog : List Product) (st : Storage)
    (payload : PurchasePayload) (commitOk : Bool) : HandlerResult × Storage :=
  let items := payload.items.getD []
  if items.isEmpty then
    (.ok ⟨0, "empty", false, 0, 0⟩, st)
  else
    let built := buildLoop catalog 1 items
    let subtotal := built.1
    let tax := Int.fdiv subtotal 10
    let total := subtotal + tax
    let emp_cd := strOrDefault payload.cashier_code "9999999999"
    let store_cd := strOrDefault payload.store_code "30"
    let pos_no := strOrDefault payload.pos_id "90"
    let tid := st.nextTradeId
    let trade : TradeRow := ⟨tid, emp_cd, store_cd, pos_no, subtotal, total⟩
    let details := built.2.map (fun d => { d with trade_id := tid })
    if commitOk then
      (.ok ⟨tid, "accepted", true, subtotal, total⟩,
        ⟨tid + 1, st.trades ++ [trade], st.details ++ details⟩)
    else
      (.err, st)

/-- The effective unit price of one cart item: the caller's override if
provided, else the catalog price of the (stripped) product code, else 0. -/
def effectiveUnitPrice (catalog : List Product) (it : PurchaseItemV2) : Int :=
  match it.unit_price with
  | some p => p
  | none => match findProduct catalog (pyStrip (it.product_code.getD "")) with
    | some q => q.price
    | none => 0

/-- A row copied by `migrate_sqlite_to_mysql._copy_table`.  `pk` models the
table's key (the integer primary key; every copied table has one, and it is
what `IntegrityError` conflicts are detected on), `payload` the remaining
columns. -/
structure MigRow where
  pk : Nat
  payload : Nat
deriving DecidableEq, Repr

/-- Whether the destination already holds a row with the given key, i.e.
whether `INSERT` of such a row raises `IntegrityError`. -/
def hasPk (dst : List MigRow) (k : Nat) : Bool :=
  dst.any (fun d => d.pk == k)

/-- `_chunked`: accumulate rows in a buffer and emit it whenever it reaches
`size`; emit the non-empty remainder at the end. -/
def chunkedGo (size : Nat) : List MigRow → List MigRow → List (List MigRow)
  | buf, [] => if buf.isEmpty then [] else [buf]
  | buf, r :: rest =>
    let buf2 := buf ++ [r]
    if size ≤ buf2.length then buf2 :: chunkedGo size [] rest
    else chunkedGo size buf2 rest

/-- `_chunked(rows, size)` as called by `_copy_table`. -/
def chunked (size : Nat) (rows : List MigRow) : List (List MigRow) :=
  chunkedGo size [] rows

/-- The `except IntegrityError` fallback of `_copy_table`: insert the batch
row by row, counting successes as inserted and conflicts as skipped.
Returns (new destination, (inserted, skipped)). -/
def insertRowByRow : List MigRow → List MigRow → List MigRow × Nat × Nat
  | dst, [] => (dst, 0, 0)
  | dst, r :: rest =>
    if hasPk dst r.pk then
      let rec_ := insertRowByRow dst rest
      (rec_.1, rec_.2.1, rec_.2.2 + 1)
    else
      let rec_ := insertRowByRow (dst ++ [r]) rest
      (rec_.1, rec_.2.1 + 1, rec_.2.2)

/-- One iteration of `_copy_table`'s batch loop: the multi-row insert
succeeds (atomically, adding the whole batch) iff no row of the batch
conflicts with the destination; on `IntegrityError` it falls back to
`insertRowByRow`. -/
def copyBatch (dst : List MigRow) (batch : List MigRow) :
    List MigRow × Nat × Nat :=
  if batch.any (fun r => hasPk dst r.pk) then insertRowByRow dst batch
  else (dst ++ batch, batch.length, 0)

/-- `_copy_table`'s loop over all batches, accumulating the inserted and
skipped counters. -/
def copyBatches : List MigRow → List (List MigRow) → List MigRow × Nat × Nat
  | dst, [] => (dst, 0, 0)
  | dst, b :: bs =>
    let r1 := copyBatch dst b
    let r2 := copyBatches r1.1 bs
    (r2.1, r1.2.1 + r2.2.1, r1.2.2 + r2.2.2)

/-- `_copy_table(src, dst, table, apply=True)`: copy all source rows in
batches of 500.  Returns the new destination table and the reported
(inserted, skipped) counters; the reported `src_count` is `src.length`. -/
def copyTable (src dst : List MigRow) : List MigRow × Nat × Nat :=
  copyBatches dst (chunked 500 src)

/-- One `trade_details` row as selected by `_fetch_trade_details` in
`diagnose_trade_detail_conflicts.py` (DTL_NO may be NULL). -/
structure DiagRow where
  dtlId : Nat
  trdId : Nat
  dtlNo : Option Nat
  prdCode : String
  prdName : String
  prdPrice : Int
  qty : Int
deriving DecidableEq, Repr

/-- The classification loop of `diagnose_trade_detail_conflicts.main`:
one pass over the source rows; `pk in d_by_pk` (a DTL_ID match) takes
precedence, then the (TRD_ID, DTL_NO) unique key, else the row is missing
in the destination.  Returns (pk_conflicts, uq_conflicts, missing), each in
source order (the paired destination rows only affect the printout, not the
classification or the counts). -/
def diagnoseLoop (dRows : List DiagRow) : List DiagRow →
    List DiagRow × List DiagRow × List DiagRow
  | [] => ([], [], [])
  | s :: rest =>
    let r := diagnoseLoop dRows rest
    if dRows.any (fun d => d.dtlId == s.dtlId) then
      (s :: r.1, r.2.1, r.2.2)
    else if dRows.any (fun d => d.trdId == s.trdId && d.dtlNo == s.dtlNo) then
      (r.1, s :: r.2.1, r.2.2)
    else
      (r.1, r.2.1, s :: r.2.2)

/-- One `with dst.begin(): conn.execute(insert(...))` of the apply branch of
`fix_missing_trade_details.main`: a single-row transaction over the
destination's (TRD_ID, DTL_NO) pairs.  It commits the row, or fails (the
unique constraint rejects the pair) leaving the destination unchanged and
raising out of the loop. -/
def insertDetail (dst : List (Nat × Nat)) (p : Nat × Nat) :
    Option (List (Nat × Nat)) :=
  if dst.any (fun q => q.1 == p.1 && q.2 == p.2) then none
  else some (dst ++ [p])

/-- The apply-mode insert sequence of `fix_missing_trade_details.main`:
the planned (TRD_ID, DTL_NO) rows are executed in plan order, each in its
own transaction.  The first failing insert stops the run (the exception
propagates out of `main`); everything committed before it stays committed.
Returns the final committed destination and whether the run completed. -/
def applyInserts (dst : List (Nat × Nat)) : List (Nat × Nat) →
    List (Nat × Nat) × Bool
  | [] => (dst, true)
  | p :: rest =>
    match insertDetail dst p with
    | none => (dst, false)
    | some dst2 => applyInserts dst2 rest

/-- A source `trade_details` row returned by `_fetch_src_nulls` (its DTL_NO
is NULL in the source, which is why it needs a computed line number). -/
structure SrcRow where
  dtlId : Nat
  trdId : Nat
  prdCode : String
  qty : Int
deriving DecidableEq, Repr

/-- `result.setdefault(d["TRD_ID"], []).append(d)`: append the row to its
trade's group; a new trade id opens a group at the end (Python dicts keep
insertion order). -/
def addToGroups : List (Nat × List SrcRow) → SrcRow → List (Nat × List SrcRow)
  | [], r => [(r.trdId, [r])]
  | (t, g) :: rest, r =>
    if t = r.trdId then (t, g ++ [r]) :: rest
    else (t, g) :: addToGroups rest r

/-- The grouping loop of `_fetch_src_nulls`, fed with the rows exactly as
the `ORDER BY TRD_ID ASC, DTL_ID ASC` query delivers them. -/
def groupByTrade (rows : List SrcRow) : List (Nat × List SrcRow) :=
  rows.foldl addToGroups []

def nextFreeF : Nat → List Nat → Nat → Nat
  | 0, _, n => n
  | fuel + 1, used, n => if n ∈ used then nextFreeF fuel used (n + 1) else n

/-- `while next_no in used_set: next_no += 1` of
`fix_missing_trade_details.main`; `used.length + 1` steps of fuel always
suffice (`nextFree_spec`). -/
def nextFree (used : List Nat) (n : Nat) : Nat :=
  nextFreeF (used.length + 1) used n

/-- The per-trade assignment loop of `fix_missing_trade_details.main`: each
row receives the lowest `next_no` not in `used_set`; the assigned number is
added to `used_set` and `next_no` continues past it. -/
def assignLineNos : List Nat → Nat → List SrcRow → List (SrcRow × Nat)
  | _, _, [] => []
  | used, next, r :: rest =>
    let n := nextFree used next
    (r, n) :: assignLineNos (n :: used) (n + 1) rest

/-- The sequence `A` lists, step by step, the smallest positive numbers not
used so far: each entry is at least 1, is not in the used set at its step,
every smaller positive number is used at that step, and the entry joins the
used set for the later steps. -/
def IsMinAssign : List Nat → List Nat → Prop
  | _, [] => True
  | used, a :: rest =>
    a ∉ used ∧ 1 ≤ a ∧ (∀ m, 1 ≤ m → m < a → m ∈ used)
    ∧ IsMinAssign (a :: used) rest

example : createPurchase [⟨1, "A", "Apple", 100⟩] ⟨1, [], []⟩
    ⟨none, none, none, some [⟨some "A", some 2, none⟩]⟩ true
    = (.ok ⟨1, "accepted", true, 200, 220⟩,
      ⟨2, [⟨1, "9999999999", "30", "90", 200, 220⟩],
        [⟨1, 1, some 1, "A", "Apple", 100, 2, "10"⟩]⟩) := by decide

theorem isEmpty_false_of_ne_nil {α : Type _} {l : List α} (h : l ≠ []) :
    l.isEmpty = false := by
  cases l with
  | nil => exact absurd rfl h
  | cons a t => rfl

theorem buildLoop_subtotal (catalog : List Product) :
    ∀ (idx : Nat) (its : List PurchaseItemV2),
    (buildLoop catalog idx its).1
      = (its.map (fun it => effectiveUnitPrice catalog it * it.quantity.getD 0)).sum
  | _, [] => by simp [buildLoop]
  | idx, it :: rest => by
    simp only [buildLoop, List.map_cons, List.sum_cons,
      buildLoop_subtotal catalog (idx + 1) rest, effectiveUnitPrice]

theorem buildLoop_length (catalog : List Product) :
    ∀ (idx : Nat) (its : List PurchaseItemV2),
    (buildLoop catalog idx its).2.length = its.length
  | _, [] => by simp [buildLoop]
  | idx, it :: rest => by
    simp [buildLoop, buildLoop_length catalog (idx + 1) rest]

theorem buildLoop_lineNos (catalog : List Product) :
    ∀ (idx : Nat) (its : List PurchaseItemV2),
    (buildLoop catalog idx its).2.map (fun d => d.line_no)
      = List.range' idx its.length
  | _, [] => by simp [buildLoop]
  | idx, it :: rest => by
    simp [buildLoop, List.range', buildLoop_lineNos catalog (idx + 1) rest]

/-- C1: for every non-empty cart, the purchase handler returns
subtotal = Σ effective_unit_price * quantity, and
total = subtotal + tax with tax = floor(subtotal / 10) by integer (floor)
division, where the effective unit price is the caller's override if
provided, else the catalog price, else 0 when the product is not found. -/
theorem create_purchase_totals (catalog : List Product) (st : Storage)
    (payload : PurchasePayload) (hne : payload.items.getD [] ≠ []) :
    (createPurchase catalog st payload true).1 =
      .ok ⟨st.nextTradeId, "accepted", true,
        ((payload.items.getD []).map
          (fun it => effectiveUnitPrice catalog it * it.quantity.getD 0)).sum,
        ((payload.items.getD []).map
          (fun it => effectiveUnitPrice catalog it * it.quantity.getD 0)).sum
        + Int.fdiv
          (((payload.items.getD []).map
            (fun it => effectiveUnitPrice catalog it * it.quantity.getD 0)).sum)
          10⟩ := by
  simp only [createPurchase, isEmpty_false_of_ne_nil hne, Bool.false_eq_true,
    if_false, if_true, buildLoop_subtotal]

/-- Witness for C1: the spec's worked example
(cart = A×2 at override 100, B×1 with catalog price 300
⇒ subtotal 500, total 550). -/
theorem create_purchase_totals_witness :
    ((⟨none, none, none,
        some [⟨some "A", some 2, some 100⟩, ⟨some "B", some 1, none⟩]⟩ :
        PurchasePayload).items.getD [] ≠ []) ∧
    (createPurchase [⟨7, "B", "Choc", 300⟩] ⟨1, [], []⟩
        ⟨none, none, none,
          some [⟨some "A", some 2, some 100⟩, ⟨some "B", some 1, none⟩]⟩
        true).1
      = .ok ⟨1, "accepted", true, 500, 550⟩ := by
  constructor
  · decide
  · have h := create_purchase_totals [⟨7, "B", "Choc", 300⟩] ⟨1, [], []⟩
      ⟨none, none, none,
        some [⟨some "A", some 2, some 100⟩, ⟨some "B", some 1, none⟩]⟩
      (by decide)
    rw [h]
    decide

/-- C2: for every cart with N ≥ 1 items, the handler persists trade details
whose line numbers are exactly 1..N in input order (no gaps, no duplicates),
regardless of the product codes. -/
theorem create_purchase_line_numbers (catalog : List Product) (st : Storage)
    (payload : PurchasePayload) (hne : payload.items.getD [] ≠ []) :
    ((createPurchase catalog st payload true).2.details).map (fun d => d.line_no)
      = st.details.map (fun d => d.line_no)
        ++ List.range' 1 (payload.items.getD []).length := by
  simp only [createPurchase, isEmpty_false_of_ne_nil hne, Bool.false_eq_true,
    if_false, if_true, List.map_append, List.map_map]
  have : ((fun d => d.line_no) ∘
      fun d : TradeDetailRow => { d with trade_id := st.nextTradeId })
      = fun d : TradeDetailRow => d.line_no := rfl
  rw [this, buildLoop_lineNos]

/-- Witness for C2: a three-item cart with a duplicated product code still
gets line numbers [1, 2, 3]. -/
theorem create_purchase_line_numbers_witness :
    ((⟨none, none, none,
        some [⟨some "A", some 1, some 5⟩, ⟨some "A", some 2, some 5⟩,
          ⟨some "C", some 1, none⟩]⟩ : PurchasePayload).items.getD [] ≠ []) ∧
    ((createPurchase [] ⟨4, [], []⟩
        ⟨none, none, none,
          some [⟨some "A", some 1, some 5⟩, ⟨some "A", some 2, some 5⟩,
            ⟨some "C", some 1, none⟩]⟩ true).2.details).map (fun d => d.line_no)
      = [1, 2, 3] := by
  constructor
  · decide
  · have h := create_purchase_line_numbers [] ⟨4, [], []⟩
      ⟨none, none, none,
        some [⟨some "A", some 1, some 5⟩, ⟨some "A", some 2, some 5⟩,
          ⟨some "C", some 1, none⟩]⟩ (by decide)
    rw [h]
    decide

/-- C3: an empty (or absent) item list yields exactly
{id: 0, status: "empty", success: false, subtotal: 0, total: 0} and the
committed storage is unchanged: no trade and no trade-detail row is added. -/
theorem create_purchase_empty (catalog : List Product) (st : Storage)
    (payload : PurchasePayload) (commitOk : Bool)
    (h : payload.items.getD [] = []) :
    createPurchase catalog st payload commitOk
      = (.ok ⟨0, "empty", false, 0, 0⟩, st) := by
  simp [createPurchase, h]

/-- Witness for C3: the empty-cart request against a non-empty store leaves
it untouched. -/
theorem create_purchase_empty_witness :
    ((⟨some "1", none, none, some []⟩ : PurchasePayload).items.getD [] = []) ∧
    createPurchase [⟨1, "A", "Apple", 100⟩]
        ⟨5, [⟨4, "9999999999", "30", "90", 10, 11⟩], []⟩
        ⟨some "1", none, none, some []⟩ true
      = (.ok ⟨0, "empty", false, 0, 0⟩,
        ⟨5, [⟨4, "9999999999", "30", "90", 10, 11⟩], []⟩) :=
  ⟨by decide,
    create_purchase_empty [⟨1, "A", "Apple", 100⟩]
      ⟨5, [⟨4, "9999999999", "30", "90", 10, 11⟩], []⟩
      ⟨some "1", none, none, some []⟩ true (by decide)⟩

/-- C5: the persist step is atomic.  For every input and every outcome of the
single commit, the committed storage is either unchanged or extended in one
step by exactly one trade header together with all of its details (one per
cart item, each carrying the new trade's identifier); a header is never
committed without all of its details. -/
theorem create_purchase_atomic (catalog : List Product) (st : Storage)
    (payload : PurchasePayload) (commitOk : Bool) :
    (createPurchase catalog st payload commitOk).2 = st ∨
    ∃ t ds, (createPurchase catalog st payload commitOk).2
        = ⟨t.id + 1, st.trades ++ [t], st.details ++ ds⟩
      ∧ ds.length = (payload.items.getD []).length
      ∧ ∀ d ∈ ds, d.trade_id = t.id := by
  by_cases hne : payload.items.getD [] = []
  · left
    rw [create_purchase_empty catalog st payload commitOk hne]
  · cases commitOk with
    | false =>
      left
      simp only [createPurchase, isEmpty_false_of_ne_nil hne, Bool.false_eq_true,
        if_false]
    | true =>
      right
      refine ⟨⟨st.nextTradeId, strOrDefault payload.cashier_code "9999999999",
          strOrDefault payload.store_code "30", strOrDefault payload.pos_id "90",
          (buildLoop catalog 1 (payload.items.getD [])).1,
          (buildLoop catalog 1 (payload.items.getD [])).1
            + Int.fdiv (buildLoop catalog 1 (payload.items.getD [])).1 10⟩,
        (buildLoop catalog 1 (payload.items.getD [])).2.map
          (fun d => { d with trade_id := st.nextTradeId }), ?_, ?_, ?_⟩
      · simp only [createPurchase, isEmpty_false_of_ne_nil hne, Bool.false_eq_true,
          if_false, if_true]
      · simp [buildLoop_length]
      · intro d hd
        simp only [List.mem_map] at hd
        obtain ⟨d0, _, rfl⟩ := hd
        rfl

/-- C4 is violated by the mounted handler: a cart item with quantity 0 is not
rejected — the raw-dict handler performs no validation, writes the trade and
a detail row with qty = 0, and answers "accepted"/success. -/
theorem create_purchase_accepts_nonpositive_qty :
    createPurchase [⟨1, "A", "Apple", 100⟩] ⟨1, [], []⟩
        ⟨none, none, none, some [⟨some "A", some 0, none⟩]⟩ true
      = (.ok ⟨1, "accepted", true, 0, 0⟩,
        ⟨2, [⟨1, "9999999999", "30", "90", 0, 0⟩],
          [⟨1, 1, some 1, "A", "Apple", 100, 0, "10"⟩]⟩) := by
  decide

/-- C9 counterexample: the supplied non-blank cashier code " 7 " is not
persisted verbatim — the handler strips it and persists "7". -/
theorem create_purchase_cashier_not_verbatim :
    ((createPurchase [] ⟨1, [], []⟩
        ⟨some " 7 ", none, none, some [⟨some "A", some 1, some 10⟩]⟩
        true).2.trades.map (fun t => t.emp_cd) = ["7"]) ∧ "7" ≠ " 7 " := by
  decide

/-- C9 (amended): omitted or blank (whitespace-only) header fields fall back
to the sentinels "9999999999" / "30" / "90"; a supplied non-blank value is
persisted stripped of surrounding whitespace instead of the sentinel. -/
theorem create_purchase_header_defaults (catalog : List Product) (st : Storage)
    (payload : PurchasePayload) (hne : payload.items.getD [] ≠ []) :
    ∃ t, (createPurchase catalog st payload true).2.trades = st.trades ++ [t]
      ∧ ((payload.cashier_code = none
          ∨ ∃ s, payload.cashier_code = some s ∧ pyStrip s = "") →
          t.emp_cd = "9999999999")
      ∧ (∀ s, payload.cashier_code = some s → pyStrip s ≠ "" →
          t.emp_cd = pyStrip s)
      ∧ ((payload.store_code = none
          ∨ ∃ s, payload.store_code = some s ∧ pyStrip s = "") →
          t.store_cd = "30")
      ∧ (∀ s, payload.store_code = some s → pyStrip s ≠ "" →
          t.store_cd = pyStrip s)
      ∧ ((payload.pos_id = none
          ∨ ∃ s, payload.pos_id = some s ∧ pyStrip s = "") →
          t.pos_no = "90")
      ∧ (∀ s, payload.pos_id = some s → pyStrip s ≠ "" →
          t.pos_no = pyStrip s) := by
  have hdef : ∀ (x : Option String) (dflt : String),
      ((x = none ∨ ∃ s, x = some s ∧ pyStrip s = "") →
        strOrDefault x dflt = dflt)
      ∧ (∀ s, x = some s → pyStrip s ≠ "" → strOrDefault x dflt = pyStrip s) := by
    intro x dflt
    constructor
    · rintro (rfl | ⟨s, rfl, hs⟩)
      · rfl
      · simp [strOrDefault, hs]
    · rintro s rfl hs
      simp [strOrDefault, hs]
  refine ⟨⟨st.nextTradeId, strOrDefault payload.cashier_code "9999999999",
      strOrDefault payload.store_code "30", strOrDefault payload.pos_id "90",
      (buildLoop catalog 1 (payload.items.getD [])).1,
      (buildLoop catalog 1 (payload.items.getD [])).1
        + Int.fdiv (buildLoop catalog 1 (payload.items.getD [])).1 10⟩,
    ?_, (hdef _ _).1, (hdef _ _).2, (hdef _ _).1, (hdef _ _).2,
    (hdef _ _).1, (hdef _ _).2⟩
  simp only [createPurchase, isEmpty_false_of_ne_nil hne, Bool.false_eq_true,
    if_false, if_true]

/-- Witness for C9 (amended): cashier " 7 " persists as "7", store omitted
persists as "30", blank pos_id persists as "90". -/
theorem create_purchase_header_defaults_witness :
    ((⟨some " 7 ", none, some "  ", some [⟨some "A", some 1, some 10⟩]⟩ :
        PurchasePayload).items.getD [] ≠ []) ∧
    ∃ t, (createPurchase [] ⟨1, [], []⟩
        ⟨some " 7 ", none, some "  ", some [⟨some "A", some 1, some 10⟩]⟩
        true).2.trades = ([] : List TradeRow) ++ [t]
      ∧ (((⟨some " 7 ", none, some "  ",
            some [⟨some "A", some 1, some 10⟩]⟩ :
            PurchasePayload).cashier_code = none
          ∨ ∃ s, (⟨some " 7 ", none, some "  ",
            some [⟨some "A", some 1, some 10⟩]⟩ :
            PurchasePayload).cashier_code = some s ∧ pyStrip s = "") →
          t.emp_cd = "9999999999")
      ∧ (∀ s, (⟨some " 7 ", none, some "  ",
            some [⟨some "A", some 1, some 10⟩]⟩ :
            PurchasePayload).cashier_code = some s → pyStrip s ≠ "" →
          t.emp_cd = pyStrip s)
      ∧ (((⟨some " 7 ", none, some "  ",
            some [⟨some "A", some 1, some 10⟩]⟩ :
            PurchasePayload).store_code = none
          ∨ ∃ s, (⟨some " 7 ", none, some "  ",
            some [⟨some "A", some 1, some 10⟩]⟩ :
            PurchasePayload).store_code = some s ∧ pyStrip s = "") →
          t.store_cd = "30")
      ∧ (∀ s, (⟨some " 7 ", none, some "  ",
            some [⟨some "A", some 1, some 10⟩]⟩ :
            PurchasePayload).store_code = some s → pyStrip s ≠ "" →
          t.store_cd = pyStrip s)
      ∧ (((⟨some " 7 ", none, some "  ",
            some [⟨some "A", some 1, some 10⟩]⟩ :
            PurchasePayload).pos_id = none
          ∨ ∃ s, (⟨some " 7 ", none, some "  ",
            some [⟨some "A", some 1, some 10⟩]⟩ :
            PurchasePayload).pos_id = some s ∧ pyStrip s = "") →
          t.pos_no = "90")
      ∧ (∀ s, (⟨some " 7 ", none, some "  ",
            some [⟨some "A", some 1, some 10⟩]⟩ :
            PurchasePayload).pos_id = some s → pyStrip s ≠ "" →
          t.pos_no = pyStrip s) :=
  ⟨by decide,
    create_purchase_header_defaults [] ⟨1, [], []⟩
      ⟨some " 7 ", none, some "  ", some [⟨some "A", some 1, some 10⟩]⟩
      (by decide)⟩

theorem chunkedGo_cons_emit (size : Nat) (buf : List MigRow) (r : MigRow)
    (rest : List MigRow) (h : size ≤ buf.length + 1) :
    chunkedGo size buf (r :: rest) = (buf ++ [r]) :: chunkedGo size [] rest := by
  simp [chunkedGo, h]

theorem chunkedGo_cons_acc (size : Nat) (buf : List MigRow) (r : MigRow)
    (rest : List MigRow) (h : ¬ size ≤ buf.length + 1) :
    chunkedGo size buf (r :: rest) = chunkedGo size (buf ++ [r]) rest := by
  simp [chunkedGo, h]

theorem chunkedGo_flatten (size : Nat) :
    ∀ (rows buf : List MigRow), (chunkedGo size buf rows).flatten = buf ++ rows
  | [], buf => by
    cases buf with
    | nil => simp [chunkedGo]
    | cons a t => simp [chunkedGo]
  | r :: rest, buf => by
    by_cases h : size ≤ buf.length + 1
    · rw [chunkedGo_cons_emit size buf r rest h]
      simp [chunkedGo_flatten size rest []]
    · rw [chunkedGo_cons_acc size buf r rest h]
      simp [chunkedGo_flatten size rest (buf ++ [r])]

theorem chunked_flatten (size : Nat) (rows : List MigRow) :
    (chunked size rows).flatten = rows := by
  simp [chunked, chunkedGo_flatten]

theorem sublist_append_cons {α : Type _} (buf : List α) (r : α)
    (rest : List α) : rest.Sublist (buf ++ r :: rest) := by
  induction buf with
  | nil => exact List.Sublist.cons r (List.Sublist.refl rest)
  | cons a t ih => exact List.Sublist.cons a ih

theorem chunkedGo_sublist (size : Nat) :
    ∀ (rows buf : List MigRow), ∀ b ∈ chunkedGo size buf rows,
      b.Sublist (buf ++ rows)
  | [], buf => by
    intro b hb
    cases buf with
    | nil => simp [chunkedGo] at hb
    | cons a t =>
      simp [chunkedGo] at hb
      subst hb
      rw [List.append_nil]
  | r :: rest, buf => by
    intro b hb
    have hsplit : buf ++ r :: rest = (buf ++ [r]) ++ rest := by simp
    by_cases h : size ≤ buf.length + 1
    · rw [chunkedGo_cons_emit size buf r rest h] at hb
      rcases List.mem_cons.mp hb with rfl | hb
      · rw [hsplit]
        exact List.sublist_append_left (buf ++ [r]) rest
      · have hsub := chunkedGo_sublist size rest [] b hb
        rw [List.nil_append] at hsub
        exact hsub.trans (sublist_append_cons buf r rest)
    · rw [chunkedGo_cons_acc size buf r rest h] at hb
      have hsub := chunkedGo_sublist size rest (buf ++ [r]) b hb
      rw [hsplit]
      exact hsub

theorem hasPk_true_iff (dst : List MigRow) (k : Nat) :
    hasPk dst k = true ↔ k ∈ dst.map MigRow.pk := by
  simp only [hasPk, List.any_eq_true, beq_iff_eq, List.mem_map]

theorem hasPk_append (a b : List MigRow) (k : Nat) :
    hasPk (a ++ b) k = (hasPk a k || hasPk b k) := by
  simp [hasPk, List.any_append]

theorem insertRowByRow_counts : ∀ (rows dst : List MigRow),
    (insertRowByRow dst rows).2.1 + (insertRowByRow dst rows).2.2 = rows.length
  | [], dst => by simp [insertRowByRow]
  | r :: rest, dst => by
    by_cases h : hasPk dst r.pk = true
    · have ih := insertRowByRow_counts rest dst
      simp only [insertRowByRow, h, if_true, List.length_cons]
      omega
    · have hf : hasPk dst r.pk = false := by
        revert h; cases hasPk dst r.pk <;> simp
      have ih := insertRowByRow_counts rest (dst ++ [r])
      simp only [insertRowByRow, hf, Bool.false_eq_true, if_false,
        List.length_cons]
      omega

theorem insertRowByRow_mono : ∀ (rows dst : List MigRow) (k : Nat),
    hasPk dst k = true → hasPk (insertRowByRow dst rows).1 k = true
  | [], dst, k => by simp [insertRowByRow]
  | r :: rest, dst, k => by
    intro hk
    by_cases h : hasPk dst r.pk = true
    · simp only [insertRowByRow, h, if_true]
      exact insertRowByRow_mono rest dst k hk
    · have hf : hasPk dst r.pk = false := by
        revert h; cases hasPk dst r.pk <;> simp
      simp only [insertRowByRow, hf, Bool.false_eq_true, if_false]
      exact insertRowByRow_mono rest (dst ++ [r]) k
        (by rw [hasPk_append, hk, Bool.true_or])

theorem insertRowByRow_cover : ∀ (rows dst : List MigRow),
    ∀ r ∈ rows, hasPk (insertRowByRow dst rows).1 r.pk = true
  | [], dst => by simp
  | r :: rest, dst => by
    intro x hx
    rcases List.mem_cons.mp hx with rfl | hx
    · by_cases h : hasPk dst x.pk = true
      · simp only [insertRowByRow, h, if_true]
        exact insertRowByRow_mono rest dst x.pk h
      · have hf : hasPk dst x.pk = false := by
          revert h; cases hasPk dst x.pk <;> simp
        simp only [insertRowByRow, hf, Bool.false_eq_true, if_false]
        exact insertRowByRow_mono rest (dst ++ [x]) x.pk
          (by rw [hasPk_append]; simp [hasPk])
    · by_cases h : hasPk dst r.pk = true
      · simp only [insertRowByRow, h, if_true]
        exact insertRowByRow_cover rest dst x hx
      · have hf : hasPk dst r.pk = false := by
          revert h; cases hasPk dst r.pk <;> simp
        simp only [insertRowByRow, hf, Bool.false_eq_true, if_false]
        exact insertRowByRow_cover rest (dst ++ [r]) x hx

theorem insertRowByRow_all_conflict : ∀ (rows dst : List MigRow),
    (∀ r ∈ rows, hasPk dst r.pk = true) →
    insertRowByRow dst rows = (dst, 0, rows.length)
  | [], dst => by simp [insertRowByRow]
  | r :: rest, dst => by
    intro h
    have hr := h r (List.mem_cons_self r rest)
    have ih := insertRowByRow_all_conflict rest dst
      (fun x hx => h x (List.mem_cons_of_mem r hx))
    simp [insertRowByRow, hr, ih]

theorem insertRowByRow_nodup : ∀ (rows dst : List MigRow),
    (dst.map MigRow.pk).Nodup →
    ((insertRowByRow dst rows).1.map MigRow.pk).Nodup
  | [], dst => by simp [insertRowByRow]
  | r :: rest, dst => by
    intro hd
    by_cases h : hasPk dst r.pk = true
    · simp only [insertRowByRow, h, if_true]
      exact insertRowByRow_nodup rest dst hd
    · have hf : hasPk dst r.pk = false := by
        revert h; cases hasPk dst r.pk <;> simp
      simp only [insertRowByRow, hf, Bool.false_eq_true, if_false]
      refine insertRowByRow_nodup rest (dst ++ [r]) ?_
      rw [List.map_append]
      refine List.Nodup.append hd (by simp) ?_
      intro k hk hk2
      have hkr : k = r.pk := by simpa using hk2
      rw [hkr] at hk
      exact h ((hasPk_true_iff dst r.pk).mpr hk)

theorem copyBatch_counts (dst batch : List MigRow) :
    (copyBatch dst batch).2.1 + (copyBatch dst batch).2.2 = batch.length := by
  by_cases h : batch.any (fun r => hasPk dst r.pk) = true
  · simp only [copyBatch, h, if_true]
    exact insertRowByRow_counts batch dst
  · have hf : batch.any (fun r => hasPk dst r.pk) = false := by
      revert h; cases batch.any (fun r => hasPk dst r.pk) <;> simp
    simp [copyBatch, hf]

theorem copyBatch_mono (dst batch : List MigRow) (k : Nat)
    (hk : hasPk dst k = true) : hasPk (copyBatch dst batch).1 k = true := by
  by_cases h : batch.any (fun r => hasPk dst r.pk) = true
  · simp only [copyBatch, h, if_true]
    exact insertRowByRow_mono batch dst k hk
  · have hf : batch.any (fun r => hasPk dst r.pk) = false := by
      revert h; cases batch.any (fun r => hasPk dst r.pk) <;> simp
    simp only [copyBatch, hf, Bool.false_eq_true, if_false]
    rw [hasPk_append, hk, Bool.true_or]

theorem copyBatch_cover (dst batch : List MigRow) :
    ∀ r ∈ batch, hasPk (copyBatch dst batch).1 r.pk = true := by
  intro r hr
  by_cases h : batch.any (fun r => hasPk dst r.pk) = true
  · simp only [copyBatch, h, if_true]
    exact insertRowByRow_cover batch dst r hr
  · have hf : batch.any (fun r => hasPk dst r.pk) = false := by
      revert h; cases batch.any (fun r => hasPk dst r.pk) <;> simp
    simp only [copyBatch, hf, Bool.false_eq_true, if_false]
    rw [hasPk_append]
    have : hasPk batch r.pk = true :=
      (hasPk_true_iff batch r.pk).mpr (List.mem_map_of_mem MigRow.pk hr)
    rw [this, Bool.or_true]

theorem copyBatch_all_conflict (dst batch : List MigRow)
    (h : ∀ r ∈ batch, hasPk dst r.pk = true) :
    copyBatch dst batch = (dst, 0, batch.length) := by
  cases batch with
  | nil => simp [copyBatch]
  | cons r rest =>
    have hany : (r :: rest).any (fun x => hasPk dst x.pk) = true := by
      simp only [List.any_cons, h r (List.mem_cons_self r rest), Bool.true_or]
    simp only [copyBatch, hany, if_true]
    exact insertRowByRow_all_conflict (r :: rest) dst h

theorem copyBatch_nodup (dst batch : List MigRow)
    (hdst : (dst.map MigRow.pk).Nodup) (hb : (batch.map MigRow.pk).Nodup) :
    ((copyBatch dst batch).1.map MigRow.pk).Nodup := by
  by_cases h : batch.any (fun r => hasPk dst r.pk) = true
  · simp only [copyBatch, h, if_true]
    exact insertRowByRow_nodup batch dst hdst
  · have hf : batch.any (fun r => hasPk dst r.pk) = false := by
      revert h; cases batch.any (fun r => hasPk dst r.pk) <;> simp
    simp only [copyBatch, hf, Bool.false_eq_true, if_false, List.map_append]
    refine List.Nodup.append hdst hb ?_
    intro k hk1 hk2
    rcases List.mem_map.mp hk2 with ⟨r, hr, rfl⟩
    have hnone := List.any_eq_false.mp hf r hr
    rw [(hasPk_true_iff dst r.pk).mpr hk1] at hnone
    exact hnone rfl

theorem copyBatches_counts : ∀ (bs : List (List MigRow)) (dst : List MigRow),
    (copyBatches dst bs).2.1 + (copyBatches dst bs).2.2 = bs.flatten.length
  | [], dst => by simp [copyBatches]
  | b :: bs, dst => by
    have h1 := copyBatch_counts dst b
    have h2 := copyBatches_counts bs (copyBatch dst b).1
    simp only [copyBatches, List.flatten_cons, List.length_append]
    omega

theorem copyBatches_mono : ∀ (bs : List (List MigRow)) (dst : List MigRow)
    (k : Nat), hasPk dst k = true → hasPk (copyBatches dst bs).1 k = true
  | [], dst, k => by simp [copyBatches]
  | b :: bs, dst, k => by
    intro hk
    simp only [copyBatches]
    exact copyBatches_mono bs (copyBatch dst b).1 k (copyBatch_mono dst b k hk)

theorem copyBatches_cover : ∀ (bs : List (List MigRow)) (dst : List MigRow),
    ∀ r ∈ bs.flatten, hasPk (copyBatches dst bs).1 r.pk = true
  | [], dst => by simp
  | b :: bs, dst => by
    intro r hr
    simp only [copyBatches]
    rw [List.flatten_cons] at hr
    rcases List.mem_append.mp hr with hr | hr
    · exact copyBatches_mono bs (copyBatch dst b).1 r.pk
        (copyBatch_cover dst b r hr)
    · exact copyBatches_cover bs (copyBatch dst b).1 r hr

theorem copyBatches_all_conflict :
    ∀ (bs : List (List MigRow)) (dst : List MigRow),
    (∀ r ∈ bs.flatten, hasPk dst r.pk = true) →
    copyBatches dst bs = (dst, 0, bs.flatten.length)
  | [], dst => by simp [copyBatches]
  | b :: bs, dst => by
    intro h
    have hb : copyBatch dst b = (dst, 0, b.length) :=
      copyBatch_all_conflict dst b
        (fun r hr => h r (by simp [List.mem_append, hr]))
    have ih := copyBatches_all_conflict bs dst
      (fun r hr => h r (by simp [List.mem_append, hr]))
    simp [copyBatches, hb, ih]

theorem copyBatches_nodup : ∀ (bs : List (List MigRow)) (dst : List MigRow),
    (dst.map MigRow.pk).Nodup → (∀ b ∈ bs, (b.map MigRow.pk).Nodup) →
    ((copyBatches dst bs).1.map MigRow.pk).Nodup
  | [], dst => by simp [copyBatches]
  | b :: bs, dst => by
    intro hdst hbs
    simp only [copyBatches]
    exact copyBatches_nodup bs (copyBatch dst b).1
      (copyBatch_nodup dst b hdst (hbs b (List.mem_cons_self b bs)))
      (fun x hx => hbs x (List.mem_cons_of_mem b hx))

theorem chunked_nodup (size : Nat) (src : List MigRow)
    (hsrc : (src.map MigRow.pk).Nodup) :
    ∀ b ∈ chunked size src, (b.map MigRow.pk).Nodup := by
  intro b hb
  have hsub := chunkedGo_sublist size src [] b hb
  rw [List.nil_append] at hsub
  exact List.Nodup.sublist (hsub.map MigRow.pk) hsrc

/-- C6: the full-copy migration is idempotent with respect to
already-migrated rows.  Any run classifies every source row as inserted or
skipped (the run continues through conflicts); the destination keeps
distinct keys; and a second run over the same pair inserts 0 rows, skips
all `src.length` rows, and leaves the destination unchanged. -/
theorem migrate_idempotent (src dst : List MigRow)
    (hsrc : (src.map MigRow.pk).Nodup) (hdst : (dst.map MigRow.pk).Nodup) :
    (copyTable src dst).2.1 + (copyTable src dst).2.2 = src.length
    ∧ ((copyTable src dst).1.map MigRow.pk).Nodup
    ∧ copyTable src (copyTable src dst).1
      = ((copyTable src dst).1, 0, src.length) := by
  have hflat := chunked_flatten 500 src
  refine ⟨?_, ?_, ?_⟩
  · have h := copyBatches_counts (chunked 500 src) dst
    rw [hflat] at h
    exact h
  · exact copyBatches_nodup (chunked 500 src) dst hdst
      (chunked_nodup 500 src hsrc)
  · have hcov : ∀ r ∈ src, hasPk (copyTable src dst).1 r.pk = true := by
      intro r hr
      exact copyBatches_cover (chunked 500 src) dst r (by rw [hflat]; exact hr)
    have h := copyBatches_all_conflict (chunked 500 src) (copyTable src dst).1
      (fun r hr => hcov r (by rw [hflat] at hr; exact hr))
    rw [hflat] at h
    exact h

/-- Witness for C6: three source rows against a destination that already
holds the row with key 2: the first run inserts 2 and skips 1; the second
run inserts 0 and skips all 3, changing nothing. -/
theorem migrate_idempotent_witness :
    ((([⟨1, 10⟩, ⟨2, 20⟩, ⟨3, 30⟩] : List MigRow).map MigRow.pk).Nodup)
    ∧ ((([⟨2, 99⟩] : List MigRow).map MigRow.pk).Nodup)
    ∧ ((copyTable [⟨1, 10⟩, ⟨2, 20⟩, ⟨3, 30⟩] [⟨2, 99⟩]).2.1
        + (copyTable [⟨1, 10⟩, ⟨2, 20⟩, ⟨3, 30⟩] [⟨2, 99⟩]).2.2
        = ([⟨1, 10⟩, ⟨2, 20⟩, ⟨3, 30⟩] : List MigRow).length
      ∧ (((copyTable [⟨1, 10⟩, ⟨2, 20⟩, ⟨3, 30⟩] [⟨2, 99⟩]).1.map
          MigRow.pk).Nodup)
      ∧ copyTable [⟨1, 10⟩, ⟨2, 20⟩, ⟨3, 30⟩]
          (copyTable [⟨1, 10⟩, ⟨2, 20⟩, ⟨3, 30⟩] [⟨2, 99⟩]).1
        = ((copyTable [⟨1, 10⟩, ⟨2, 20⟩, ⟨3, 30⟩] [⟨2, 99⟩]).1, 0,
          ([⟨1, 10⟩, ⟨2, 20⟩, ⟨3, 30⟩] : List MigRow).length)) :=
  ⟨by decide, by decide,
    migrate_idempotent [⟨1, 10⟩, ⟨2, 20⟩, ⟨3, 30⟩] [⟨2, 99⟩]
      (by decide) (by decide)⟩

example : copyTable [⟨1, 10⟩, ⟨2, 20⟩, ⟨3, 30⟩] [⟨2, 99⟩]
    = ([⟨2, 99⟩, ⟨1, 10⟩, ⟨3, 30⟩], 2, 1) := by decide

/-- C8: conflict diagnosis classifies every source row into exactly one of
the three classes: the three counts sum to the number of source rows, every
source row lands in one of the lists, rows in the primary-key list match a
destination DTL_ID (taking precedence even when the unique key also
matches), rows in the unique-key list match (TRD_ID, DTL_NO) but no DTL_ID,
and missing rows match neither.  The script performs only SELECTs, which is
why the embedding is a pure function of the two row sets. -/
theorem diagnose_partitions (sRows dRows : List DiagRow) :
    ((diagnoseLoop dRows sRows).1.length
      + (diagnoseLoop dRows sRows).2.1.length
      + (diagnoseLoop dRows sRows).2.2.length = sRows.length)
    ∧ (∀ s ∈ sRows,
        s ∈ (diagnoseLoop dRows sRows).1 ∨ s ∈ (diagnoseLoop dRows sRows).2.1
          ∨ s ∈ (diagnoseLoop dRows sRows).2.2)
    ∧ (∀ s ∈ (diagnoseLoop dRows sRows).1,
        dRows.any (fun d => d.dtlId == s.dtlId) = true)
    ∧ (∀ s ∈ (diagnoseLoop dRows sRows).2.1,
        dRows.any (fun d => d.dtlId == s.dtlId) = false
        ∧ dRows.any (fun d => d.trdId == s.trdId && d.dtlNo == s.dtlNo) = true)
    ∧ (∀ s ∈ (diagnoseLoop dRows sRows).2.2,
        dRows.any (fun d => d.dtlId == s.dtlId) = false
        ∧ dRows.any (fun d => d.trdId == s.trdId && d.dtlNo == s.dtlNo)
          = false) := by
  induction sRows with
  | nil => simp [diagnoseLoop]
  | cons s rest ih =>
    obtain ⟨ihlen, ihmem, ihpk, ihuq, ihmiss⟩ := ih
    by_cases h1 : dRows.any (fun d => d.dtlId == s.dtlId) = true
    · refine ⟨?_, ?_, ?_, ?_, ?_⟩
      · simp only [diagnoseLoop, h1, if_true, List.length_cons]
        omega
      · intro x hx
        simp only [diagnoseLoop, h1, if_true]
        rcases List.mem_cons.mp hx with rfl | hx
        · exact Or.inl (List.mem_cons_self x _)
        · rcases ihmem x hx with h | h | h
          · exact Or.inl (List.mem_cons_of_mem s h)
          · exact Or.inr (Or.inl h)
          · exact Or.inr (Or.inr h)
      · intro x hx
        simp only [diagnoseLoop, h1, if_true] at hx
        rcases List.mem_cons.mp hx with rfl | hx
        · exact h1
        · exact ihpk x hx
      · intro x hx
        simp only [diagnoseLoop, h1, if_true] at hx
        exact ihuq x hx
      · intro x hx
        simp only [diagnoseLoop, h1, if_true] at hx
        exact ihmiss x hx
    · have hf1 : dRows.any (fun d => d.dtlId == s.dtlId) = false := by
        revert h1; cases dRows.any (fun d => d.dtlId == s.dtlId) <;> simp
      by_cases h2 : dRows.any
          (fun d => d.trdId == s.trdId && d.dtlNo == s.dtlNo) = true
      · refine ⟨?_, ?_, ?_, ?_, ?_⟩
        · simp only [diagnoseLoop, hf1, Bool.false_eq_true, if_false, h2,
            if_true, List.length_cons]
          omega
        · intro x hx
          simp only [diagnoseLoop, hf1, Bool.false_eq_true, if_false, h2,
            if_true]
          rcases List.mem_cons.mp hx with rfl | hx
          · exact Or.inr (Or.inl (List.mem_cons_self x _))
          · rcases ihmem x hx with h | h | h
            · exact Or.inl h
            · exact Or.inr (Or.inl (List.mem_cons_of_mem s h))
            · exact Or.inr (Or.inr h)
        · intro x hx
          simp only [diagnoseLoop, hf1, Bool.false_eq_true, if_false, h2,
            if_true] at hx
          exact ihpk x hx
        · intro x hx
          simp only [diagnoseLoop, hf1, Bool.false_eq_true, if_false, h2,
            if_true] at hx
          rcases List.mem_cons.mp hx with rfl | hx
          · exact ⟨hf1, h2⟩
          · exact ihuq x hx
        · intro x hx
          simp only [diagnoseLoop, hf1, Bool.false_eq_true, if_false, h2,
            if_true] at hx
          exact ihmiss x hx
      · have hf2 : dRows.any
            (fun d => d.trdId == s.trdId && d.dtlNo == s.dtlNo) = false := by
          revert h2
          cases dRows.any (fun d => d.trdId == s.trdId && d.dtlNo == s.dtlNo)
            <;> simp
        refine ⟨?_, ?_, ?_, ?_, ?_⟩
        · simp only [diagnoseLoop, hf1, hf2, Bool.false_eq_true, if_false,
            List.length_cons]
          omega
        · intro x hx
          simp only [diagnoseLoop, hf1, hf2, Bool.false_eq_true, if_false]
          rcases List.mem_cons.mp hx with rfl | hx
          · exact Or.inr (Or.inr (List.mem_cons_self x _))
          · rcases ihmem x hx with h | h | h
            · exact Or.inl h
            · exact Or.inr (Or.inl h)
            · exact Or.inr (Or.inr (List.mem_cons_of_mem s h))
        · intro x hx
          simp only [diagnoseLoop, hf1, hf2, Bool.false_eq_true, if_false]
            at hx
          exact ihpk x hx
        · intro x hx
          simp only [diagnoseLoop, hf1, hf2, Bool.false_eq_true, if_false]
            at hx
          exact ihuq x hx
        · intro x hx
          simp only [diagnoseLoop, hf1, hf2, Bool.false_eq_true, if_false]
            at hx
          rcases List.mem_cons.mp hx with rfl | hx
          · exact ⟨hf1, hf2⟩
          · exact ihmiss x hx

/-- C10: gap repair in apply mode is one transaction per planned row, not
one transaction per run: the final committed destination is the original
followed by the first k planned rows for some k; a complete run commits all
rows, and a failing run stops at the first failing insert with every
earlier row still committed — the run is not atomic across rows. -/
theorem gap_repair_apply_per_row :
    ∀ (plans : List (Nat × Nat)) (dst : List (Nat × Nat)),
    ∃ k, k ≤ plans.length
      ∧ (applyInserts dst plans).1 = dst ++ plans.take k
      ∧ ((applyInserts dst plans).2 = true → k = plans.length)
      ∧ ((applyInserts dst plans).2 = false → ∃ p rest2,
          plans.drop k = p :: rest2
          ∧ insertDetail (dst ++ plans.take k) p = none)
  | [], dst => by
    refine ⟨0, by simp, by simp [applyInserts], by simp, ?_⟩
    simp [applyInserts]
  | p :: rest, dst => by
    cases hins : insertDetail dst p with
    | none =>
      refine ⟨0, by simp, ?_, ?_, ?_⟩
      · simp [applyInserts, hins]
      · simp [applyInserts, hins]
      · intro _
        exact ⟨p, rest, by simp, by simpa using hins⟩
    | some dst2 =>
      obtain ⟨k, hk, heq, hall, hfail⟩ := gap_repair_apply_per_row rest dst2
      have hdst2 : dst2 = dst ++ [p] := by
        by_cases hc : dst.any (fun q => q.1 == p.1 && q.2 == p.2) = true
        · simp [insertDetail, hc] at hins
        · have hcf : dst.any (fun q => q.1 == p.1 && q.2 == p.2) = false := by
            revert hc
            cases dst.any (fun q => q.1 == p.1 && q.2 == p.2) <;> simp
          simp [insertDetail, hcf] at hins
          exact hins.symm
      refine ⟨k + 1, by simpa using Nat.succ_le_succ hk, ?_, ?_, ?_⟩
      · simp only [applyInserts, hins, List.take_succ_cons]
        rw [heq, hdst2, List.append_assoc]
        simp
      · intro hdone
        simp only [applyInserts, hins] at hdone
        simp [hall hdone]
      · intro hstop
        simp only [applyInserts, hins] at hstop
        obtain ⟨q, rest2, hdrop, hfailq⟩ := hfail hstop
        refine ⟨q, rest2, by simpa using hdrop, ?_⟩
        have hre : dst ++ List.take (k + 1) (p :: rest)
            = dst2 ++ List.take k rest := by
          rw [List.take_succ_cons, hdst2, List.append_assoc]
          simp
        rw [hre]
        exact hfailq

theorem filter_ge_mono (t : List Nat) (n : Nat) :
    (t.filter (fun m => decide (n + 1 ≤ m))).length
      ≤ (t.filter (fun m => decide (n ≤ m))).length := by
  induction t with
  | nil => simp
  | cons a s ih =>
    by_cases h1 : n + 1 ≤ a
    · have h2 : n ≤ a := Nat.le_of_succ_le h1
      simp only [List.filter_cons, h1, h2, decide_True, if_true, List.length_cons]
      omega
    · by_cases h2 : n ≤ a
      · simp only [List.filter_cons, h1, h2, decide_True, if_true, decide_False, Bool.false_eq_true, if_false,
          List.length_cons]
        omega
      · simp only [List.filter_cons, h1, h2, decide_False, Bool.false_eq_true, if_false]
        exact ih

theorem filter_ge_strict (used : List Nat) (n : Nat) (hn : n ∈ used) :
    (used.filter (fun m => decide (n + 1 ≤ m))).length
      < (used.filter (fun m => decide (n ≤ m))).length := by
  induction used with
  | nil => cases hn
  | cons a t ih =>
    rcases List.mem_cons.mp hn with rfl | hmem
    · have h1 : ¬ (n + 1 ≤ n) := by omega
      have h2 : n ≤ n := le_refl n
      simp only [List.filter_cons, h1, h2, decide_True, if_true, decide_False, Bool.false_eq_true, if_false,
        List.length_cons]
      have := filter_ge_mono t n
      omega
    · by_cases h1 : n + 1 ≤ a
      · have h2 : n ≤ a := Nat.le_of_succ_le h1
        simp only [List.filter_cons, h1, h2, decide_True, if_true, List.length_cons]
        have := ih hmem
        omega
      · by_cases h2 : n ≤ a
        · simp only [List.filter_cons, h1, h2, decide_True, if_true, decide_False, Bool.false_eq_true, if_false,
            List.length_cons]
          have := ih hmem
          omega
        · simp only [List.filter_cons, h1, h2, decide_False, Bool.false_eq_true, if_false]
          exact ih hmem

theorem nextFreeF_spec : ∀ (fuel : Nat) (used : List Nat) (n : Nat),
    (used.filter (fun m => decide (n ≤ m))).length < fuel →
    nextFreeF fuel used n ∉ used
    ∧ n ≤ nextFreeF fuel used n
    ∧ ∀ m, n ≤ m → m < nextFreeF fuel used n → m ∈ used
  | 0, used, n => by
    intro h
    exact absurd h (Nat.not_lt_zero _)
  | fuel + 1, used, n => by
    intro hfuel
    by_cases hn : n ∈ used
    · have hlt := filter_ge_strict used n hn
      have hrec := nextFreeF_spec fuel used (n + 1) (by omega)
      simp only [nextFreeF]
      rw [if_pos hn]
      refine ⟨hrec.1, by omega, ?_⟩
      intro m hm1 hm2
      by_cases hmn : m = n
      · rw [hmn]; exact hn
      · exact hrec.2.2 m (by omega) hm2
    · simp only [nextFreeF]
      rw [if_neg hn]
      exact ⟨hn, le_refl n, fun m hm1 hm2 => absurd hm2 (by omega)⟩

theorem nextFree_spec (used : List Nat) (n : Nat) :
    nextFree used n ∉ used ∧ n ≤ nextFree used n
    ∧ ∀ m, n ≤ m → m < nextFree used n → m ∈ used :=
  nextFreeF_spec (used.length + 1) used n
    (Nat.lt_succ_of_le (List.length_filter_le _ used))

theorem assignLineNos_spec : ∀ (rows : List SrcRow) (used : List Nat)
    (next : Nat), 1 ≤ next → (∀ m, 1 ≤ m → m < next → m ∈ used) →
    ((assignLineNos used next rows).map Prod.fst = rows)
    ∧ IsMinAssign used ((assignLineNos used next rows).map Prod.snd)
  | [], used, next => by
    intro h1 hinv
    simp [assignLineNos, IsMinAssign]
  | r :: rest, used, next => by
    intro h1 hinv
    obtain ⟨hfree, hle, hmin⟩ := nextFree_spec used next
    have hinv2 : ∀ m, 1 ≤ m → m < nextFree used next + 1 →
        m ∈ nextFree used next :: used := by
      intro m hm1 hmlt
      by_cases hmn : m = nextFree used next
      · rw [hmn]
        exact List.mem_cons_self _ _
      · have hlt : m < nextFree used next := by omega
        by_cases hmnext : m < next
        · exact List.mem_cons_of_mem _ (hinv m hm1 hmnext)
        · exact List.mem_cons_of_mem _ (hmin m (by omega) hlt)
    have hrec := assignLineNos_spec rest (nextFree used next :: used)
      (nextFree used next + 1) (by omega) hinv2
    constructor
    · simp only [assignLineNos, List.map_cons, hrec.1]
    · simp only [assignLineNos, List.map_cons, IsMinAssign]
      refine ⟨hfree, by omega, ?_, hrec.2⟩
      intro m hm1 hmlt
      by_cases hmnext : m < next
      · exact hinv m hm1 hmnext
      · exact hmin m (by omega) hmlt

theorem IsMinAssign_nodup : ∀ (used A : List Nat), IsMinAssign used A →
    A.Nodup ∧ ∀ a ∈ A, a ∉ used
  | used, [] => by
    intro _
    simp
  | used, a :: A => by
    intro h
    obtain ⟨hnot, h1, hmin, hrest⟩ := h
    have ih := IsMinAssign_nodup (a :: used) A hrest
    constructor
    · refine List.nodup_cons.mpr ⟨?_, ih.1⟩
      intro hmem
      exact (ih.2 a hmem) (List.mem_cons_self a used)
    · intro x hx
      rcases List.mem_cons.mp hx with rfl | hx
      · exact hnot
      · intro hxu
        exact (ih.2 x hx) (List.mem_cons_of_mem a hxu)

theorem addToGroups_step (r : SrcRow) (processed : List SrcRow) :
    ∀ (groups : List (Nat × List SrcRow)),
    (∀ tg ∈ groups, (∀ x ∈ tg.2, x.trdId = tg.1) ∧ tg.2.Sublist processed) →
    ∀ tg ∈ addToGroups groups r,
      (∀ x ∈ tg.2, x.trdId = tg.1) ∧ tg.2.Sublist (processed ++ [r])
  | [] => by
    intro h tg htg
    simp only [addToGroups, List.mem_singleton] at htg
    subst htg
    refine ⟨?_, List.sublist_append_right processed [r]⟩
    intro x hx
    rw [List.mem_singleton.mp hx]
  | (t0, g0) :: tl => by
    intro h tg htg
    by_cases h0 : t0 = r.trdId
    · rw [show addToGroups ((t0, g0) :: tl) r = (t0, g0 ++ [r]) :: tl from by
        simp [addToGroups, h0]] at htg
      rcases List.mem_cons.mp htg with rfl | htg
      · have hh := h (t0, g0) (List.mem_cons_self _ _)
        refine ⟨?_, List.Sublist.append hh.2 (List.Sublist.refl [r])⟩
        intro x hx
        rcases List.mem_append.mp hx with hx | hx
        · exact hh.1 x hx
        · rw [List.mem_singleton.mp hx]
          exact h0.symm
      · have hh := h tg (List.mem_cons_of_mem _ htg)
        exact ⟨hh.1, hh.2.trans (List.sublist_append_left processed [r])⟩
    · rw [show addToGroups ((t0, g0) :: tl) r
          = (t0, g0) :: addToGroups tl r from by
        simp [addToGroups, h0]] at htg
      rcases List.mem_cons.mp htg with rfl | htg
      · have hh := h (t0, g0) (List.mem_cons_self _ _)
        exact ⟨hh.1, hh.2.trans (List.sublist_append_left processed [r])⟩
      · exact addToGroups_step r processed tl
          (fun x hx => h x (List.mem_cons_of_mem _ hx)) tg htg

theorem groupByTrade_aux : ∀ (rest : List SrcRow)
    (groups : List (Nat × List SrcRow)) (processed : List SrcRow),
    (∀ tg ∈ groups, (∀ x ∈ tg.2, x.trdId = tg.1) ∧ tg.2.Sublist processed) →
    ∀ tg ∈ rest.foldl addToGroups groups,
      (∀ x ∈ tg.2, x.trdId = tg.1) ∧ tg.2.Sublist (processed ++ rest)
  | [], groups, processed => by
    intro h tg htg
    rw [List.append_nil]
    exact h tg (by simpa using htg)
  | r :: rest, groups, processed => by
    intro h tg htg
    rw [List.foldl_cons] at htg
    have step := addToGroups_step r processed groups h
    have hres := groupByTrade_aux rest (addToGroups groups r)
      (processed ++ [r]) step tg htg
    rw [List.append_assoc] at hres
    simpa using hres

theorem groupByTrade_entries (rows : List SrcRow) :
    ∀ tg ∈ groupByTrade rows,
      (∀ x ∈ tg.2, x.trdId = tg.1) ∧ tg.2.Sublist rows := by
  intro tg htg
  have h := groupByTrade_aux rows [] [] (by simp) tg htg
  simpa using h

theorem addToGroups_mem_old (r : SrcRow) :
    ∀ (groups : List (Nat × List SrcRow)) (x : SrcRow)
      (tg : Nat × List SrcRow), tg ∈ groups → x ∈ tg.2 →
    ∃ tg2 ∈ addToGroups groups r, x ∈ tg2.2
  | [], x, tg => by
    intro h
    cases h
  | (t0, g0) :: tl, x, tg => by
    intro htg hx
    by_cases h0 : t0 = r.trdId
    · rw [show addToGroups ((t0, g0) :: tl) r = (t0, g0 ++ [r]) :: tl from by
        simp [addToGroups, h0]]
      rcases List.mem_cons.mp htg with rfl | htg
      · exact ⟨(t0, g0 ++ [r]), List.mem_cons_self _ _,
          List.mem_append.mpr (Or.inl hx)⟩
      · exact ⟨tg, List.mem_cons_of_mem _ htg, hx⟩
    · rw [show addToGroups ((t0, g0) :: tl) r
          = (t0, g0) :: addToGroups tl r from by
        simp [addToGroups, h0]]
      rcases List.mem_cons.mp htg with rfl | htg
      · exact ⟨(t0, g0), List.mem_cons_self _ _, hx⟩
      · obtain ⟨tg2, h2, hx2⟩ := addToGroups_mem_old r tl x tg htg hx
        exact ⟨tg2, List.mem_cons_of_mem _ h2, hx2⟩

theorem addToGroups_mem_new (r : SrcRow) :
    ∀ (groups : List (Nat × List SrcRow)),
    ∃ tg ∈ addToGroups groups r, r ∈ tg.2
  | [] =>
    ⟨(r.trdId, [r]), List.mem_singleton.mpr rfl, List.mem_singleton.mpr rfl⟩
  | (t0, g0) :: tl => by
    by_cases h0 : t0 = r.trdId
    · rw [show addToGroups ((t0, g0) :: tl) r = (t0, g0 ++ [r]) :: tl from by
        simp [addToGroups, h0]]
      exact ⟨(t0, g0 ++ [r]), List.mem_cons_self _ _,
        List.mem_append.mpr (Or.inr (List.mem_singleton.mpr rfl))⟩
    · rw [show addToGroups ((t0, g0) :: tl) r
          = (t0, g0) :: addToGroups tl r from by
        simp [addToGroups, h0]]
      obtain ⟨tg, htg, hr⟩ := addToGroups_mem_new r tl
      exact ⟨tg, List.mem_cons_of_mem _ htg, hr⟩

theorem groupByTrade_cover_aux : ∀ (rest : List SrcRow)
    (groups : List (Nat × List SrcRow)) (x : SrcRow),
    ((∃ tg ∈ groups, x ∈ tg.2) ∨ x ∈ rest) →
    ∃ tg ∈ rest.foldl addToGroups groups, x ∈ tg.2
  | [], groups, x => by
    intro h
    rcases h with h | h
    · simpa using h
    · cases h
  | r :: rest, groups, x => by
    intro h
    rw [List.foldl_cons]
    apply groupByTrade_cover_aux rest (addToGroups groups r) x
    rcases h with ⟨tg, htg, hx⟩ | h
    · exact Or.inl (addToGroups_mem_old r groups x tg htg hx)
    · rcases List.mem_cons.mp h with rfl | h
      · exact Or.inl (addToGroups_mem_new x groups)
      · exact Or.inr h

theorem groupByTrade_cover (rows : List SrcRow) :
    ∀ x ∈ rows, ∃ tg ∈ groupByTrade rows, x ∈ tg.2 := by
  intro x hx
  exact groupByTrade_cover_aux rows [] x (Or.inr hx)

theorem pairwise_dtl_of_lex (t : Nat) : ∀ (g : List SrcRow),
    (∀ x ∈ g, x.trdId = t) →
    g.Pairwise (fun a b => a.trdId < b.trdId
      ∨ (a.trdId = b.trdId ∧ a.dtlId < b.dtlId)) →
    g.Pairwise (fun a b => a.dtlId < b.dtlId)
  | [] => by
    intro _ _
    exact List.Pairwise.nil
  | a :: g => by
    intro hall hp
    obtain ⟨hhead, htail⟩ := List.pairwise_cons.mp hp
    refine List.pairwise_cons.mpr ⟨?_, pairwise_dtl_of_lex t g
      (fun x hx => hall x (List.mem_cons_of_mem a hx)) htail⟩
    intro b hb
    rcases hhead b hb with h | h
    · exfalso
      rw [hall a (List.mem_cons_self a g),
        hall b (List.mem_cons_of_mem a hb)] at h
      exact lt_irrefl t h
    · exact h.2

/-- C7: gap repair groups the null-line-number source rows by trade
identifier (every row lands in its trade's group), processes each group in
increasing DTL_ID order (given the query's ordering), and assigns, step by
step, the smallest line number starting at 1 that is neither used in the
destination for that trade nor already assigned in this run
(`IsMinAssign`); in particular the assigned numbers are pairwise distinct
and never collide with the destination's, preserving the per-trade
(TRD_ID, DTL_NO) uniqueness invariant. -/
theorem gap_repair_assigns_smallest_unused (rows : List SrcRow)
    (used : Nat → List Nat)
    (hsorted : rows.Pairwise (fun a b => a.trdId < b.trdId
      ∨ (a.trdId = b.trdId ∧ a.dtlId < b.dtlId))) :
    (∀ x ∈ rows, ∃ tg ∈ groupByTrade rows, x ∈ tg.2)
    ∧ ∀ tg ∈ groupByTrade rows,
      (∀ x ∈ tg.2, x.trdId = tg.1)
      ∧ tg.2.Pairwise (fun a b => a.dtlId < b.dtlId)
      ∧ ((assignLineNos (used tg.1) 1 tg.2).map Prod.fst = tg.2)
      ∧ IsMinAssign (used tg.1)
          ((assignLineNos (used tg.1) 1 tg.2).map Prod.snd)
      ∧ ((assignLineNos (used tg.1) 1 tg.2).map Prod.snd).Nodup
      ∧ ∀ a ∈ (assignLineNos (used tg.1) 1 tg.2).map Prod.snd,
          a ∉ used tg.1 := by
  refine ⟨groupByTrade_cover rows, ?_⟩
  intro tg htg
  obtain ⟨hall, hsub⟩ := groupByTrade_entries rows tg htg
  have hspec := assignLineNos_spec tg.2 (used tg.1) 1 (le_refl 1)
    (fun m hm1 hmlt => absurd hmlt (by omega))
  have hnd := IsMinAssign_nodup (used tg.1) _ hspec.2
  exact ⟨hall, pairwise_dtl_of_lex tg.1 tg.2 hall
    (List.Pairwise.sublist hsub hsorted),
    hspec.1, hspec.2, hnd.1, hnd.2⟩

/-- Witness for C7: two trades; trade 1 already uses line numbers 1 and 3
in the destination, so its two repaired rows get 2 and 4; trade 2 starts
fresh at 1. -/
theorem gap_repair_assigns_smallest_unused_witness :
    (([⟨10, 1, "A", 1⟩, ⟨11, 1, "B", 2⟩, ⟨12, 2, "C", 1⟩] :
        List SrcRow).Pairwise (fun a b => a.trdId < b.trdId
      ∨ (a.trdId = b.trdId ∧ a.dtlId < b.dtlId)))
    ∧ ((∀ x ∈ ([⟨10, 1, "A", 1⟩, ⟨11, 1, "B", 2⟩, ⟨12, 2, "C", 1⟩] :
          List SrcRow),
        ∃ tg ∈ groupByTrade [⟨10, 1, "A", 1⟩, ⟨11, 1, "B", 2⟩,
          ⟨12, 2, "C", 1⟩], x ∈ tg.2)
      ∧ ∀ tg ∈ groupByTrade [⟨10, 1, "A", 1⟩, ⟨11, 1, "B", 2⟩,
          ⟨12, 2, "C", 1⟩],
        (∀ x ∈ tg.2, x.trdId = tg.1)
        ∧ tg.2.Pairwise (fun a b => a.dtlId < b.dtlId)
        ∧ ((assignLineNos ((fun t => if t = 1 then [1, 3] else []) tg.1) 1
            tg.2).map Prod.fst = tg.2)
        ∧ IsMinAssign ((fun t => if t = 1 then [1, 3] else []) tg.1)
            ((assignLineNos ((fun t => if t = 1 then [1, 3] else []) tg.1) 1
              tg.2).map Prod.snd)
        ∧ ((assignLineNos ((fun t => if t = 1 then [1, 3] else []) tg.1) 1
            tg.2).map Prod.snd).Nodup
        ∧ ∀ a ∈ (assignLineNos ((fun t => if t = 1 then [1, 3] else [])
            tg.1) 1 tg.2).map Prod.snd,
            a ∉ (fun t => if t = 1 then [1, 3] else []) tg.1) :=
  ⟨by decide,
    gap_repair_assigns_smallest_unused
      [⟨10, 1, "A", 1⟩, ⟨11, 1, "B", 2⟩, ⟨12, 2, "C", 1⟩]
      (fun t => if t = 1 then [1, 3] else []) (by decide)⟩

example : (groupByTrade [⟨10, 1, "A", 1⟩, ⟨11, 1, "B", 2⟩,
    ⟨12, 2, "C", 1⟩]).map
    (fun tg => (tg.1, (assignLineNos
      ((fun t => if t = 1 then [1, 3] else []) tg.1) 1 tg.2).map
        (fun p => (p.1.dtlId, p.2))))
    = [(1, [(10, 2), (11, 4)]), (2, [(12, 1)])] := by decide
